import Mathlib

/-!
Shallow embedding of `src/fs.rs` — a reimplementation of `std::fs::read_dir`
built directly on the `getdents64` Linux syscall.

Bytes are modelled as `Nat` (values below 256 in well-formed inputs), byte
buffers as `List Nat`.  The kernel is modelled as an oracle: a list of
syscall results consumed in order.  `ReadDir::next` is embedded as a
fuel-indexed step function `nextGo` that also reports how many `getdents64`
invocations the call issued, so that claims about "no further refill
syscalls" can be settled.
-/

namespace Getdents

/-- The Linux errno for a signal-interrupted syscall (`libc::EINTR`). -/
def EINTR : Nat := 4

/-- The reference block size (`libc::BUFSIZ` on Linux/glibc). -/
def BUFSIZ : Nat := 8192

/-- Number of values of `usize` on the 64-bit target. -/
def USIZE : Nat := 2 ^ 64

/-- Little-endian read of `n` bytes of `buf` starting at `off`; positions
outside the list read as 0 (the `Vec` is zero-initialised on construction). -/
def readLE (buf : List Nat) (off : Nat) : Nat → Nat
  | 0 => 0
  | n + 1 => buf.getD off 0 + 256 * readLE buf (off + 1) n

/-- The `d_ino` field of the `dirent64` record at `off`: 8 bytes at offset 0. -/
def d_ino (buf : List Nat) (off : Nat) : Nat := readLE buf off 8

/-- The `d_reclen` field of the `dirent64` record at `off`: 2 bytes at record
offset 16 (after `d_ino` and `d_off`). -/
def d_reclen (buf : List Nat) (off : Nat) : Nat := readLE buf (off + 16) 2

/-- Offset of the `d_name` field inside a `dirent64` record. -/
def NAME_START : Nat := 19

/-- Model of `libc::strlen` scanning `buf` from position `off`: the number of
bytes before the first NUL byte. -/
def strlenFrom (buf : List Nat) (off : Nat) : Nat :=
  ((buf.drop off).takeWhile (fun b => b != 0)).length

/-- Model of `DirEntry`: the copied record bytes, the cached name length
computed by `strlen`, and the shared root path (the `Arc<PathBuf>`). -/
structure DirEntry where
  entry : List Nat
  namelen : Nat
  root : List Nat
deriving DecidableEq

/-- Model of `DirEntry::name_bytes`: `namelen` bytes starting at the
`d_name` field of the copied record. -/
def nameBytes (e : DirEntry) : List Nat := (e.entry.drop NAME_START).take e.namelen

/-- Model of `Path::join` on byte sequences (47 is the path separator). -/
def pathJoin (root name : List Nat) : List Nat :=
  if name.head? = some 47 then name
  else if root = [] then name
  else if root.getLast? = some 47 then root ++ name
  else root ++ 47 :: name

/-- Model of `DirEntry::path`: the root path joined with the name bytes. -/
def DirEntry.path (e : DirEntry) : List Nat := pathJoin e.root (nameBytes e)

/-- One kernel answer to a `getdents64` invocation: the raw return value
`res` and, when `res > 0`, the bytes written into the buffer prefix. -/
structure SyscallRet where
  res : Int
  data : List Nat
deriving DecidableEq

/-- Overwrite the prefix of `buf` with `data` elementwise (the kernel
writing into the caller's buffer, at most `buf.len()` bytes); the length of
`buf` is preserved. -/
def writeBuf : List Nat → List Nat → List Nat
  | buf, [] => buf
  | [], _ => []
  | _ :: bs, d :: ds => d :: writeBuf bs ds

/-- Outcome of the refill loop around `getdents64` in `ReadDir::next`. -/
inductive RefillOutcome where
  | eof
  | filled (size : Nat) (buf : List Nat)
  | fail (errno : Nat)
  | diverge
deriving DecidableEq

/-- The inner refill loop of `ReadDir::next`: call `getdents64`; `0` means
end of directory, a positive value is the byte count written, a negative
value is `-errno`, retried when the errno is `EINTR`.  Returns the outcome,
the unconsumed oracle, and the number of `getdents64` invocations.
`diverge` models an oracle exhausted while retrying. -/
def refillLoop (buf : List Nat) : List SyscallRet → RefillOutcome × List SyscallRet × Nat
  | [] => (.diverge, [], 0)
  | r :: rest =>
    if r.res = 0 then (.eof, rest, 1)
    else if 0 < r.res then (.filled r.res.toNat (writeBuf buf r.data), rest, 1)
    else if (-r.res).toNat ≠ EINTR then (.fail (-r.res).toNat, rest, 1)
    else
      let p := refillLoop buf rest
      (p.1, p.2.1, p.2.2 + 1)

/-- Model of the iterator state: the shared root path and the fields
`buf`, `buf_size`, `buf_offset` of `ReadDir`. -/
structure ReadDirState where
  root : List Nat
  buf : List Nat
  buf_size : Nat
  buf_offset : Nat
deriving DecidableEq

/-- The record-decoding step of `ReadDir::next`: read `d_reclen` and `d_ino`
at `buf_offset`, copy `d_reclen` bytes into an owned entry, compute the name
length with `strlen`, and advance `buf_offset` by `d_reclen`.  No bound of
the valid region is consulted. -/
def recordStep (s : ReadDirState) : DirEntry × Nat × ReadDirState :=
  let off := s.buf_offset
  let reclen := d_reclen s.buf off
  let e : DirEntry :=
    ⟨(s.buf.drop off).take reclen, strlenFrom s.buf (off + NAME_START), s.root⟩
  (e, d_ino s.buf off, { s with buf_offset := off + reclen })

/-- The filtering policy of `ReadDir::next`: skip the record when `d_ino` is
zero or the name is `.` or `..` (46 is the byte of the dot). -/
def skipEntry (ino : Nat) (e : DirEntry) : Bool :=
  ino == 0 || nameBytes e == [46] || nameBytes e == [46, 46]

/-- Result of one call to `ReadDir::next`: `none` models `None` (end of
directory), `someOk` models `Some(Ok(entry))`, `someErr` models
`Some(Err(error))`, and `outOfFuel` marks an unfinished computation. -/
inductive NextResult where
  | none
  | someOk (e : DirEntry)
  | someErr (errno : Nat)
  | outOfFuel
deriving DecidableEq

/-- Fuel-indexed embedding of `ReadDir::next`.  Each fuel step is one
iteration of the outer `loop`: refill when `buf_offset >= buf_size`
(returning `None` on end of directory and `Some(Err(_))` on a non-EINTR
failure), then decode one record and either skip it (continue looping) or
yield it.  Returns the result, the new state, the unconsumed oracle, and
the number of `getdents64` invocations issued by this call. -/
def nextGo : Nat → ReadDirState → List SyscallRet →
    NextResult × ReadDirState × List SyscallRet × Nat
  | 0, s, o => (.outOfFuel, s, o, 0)
  | fuel + 1, s, o =>
    if s.buf_size ≤ s.buf_offset then
      match refillLoop s.buf o with
      | (.eof, o1, k) => (.none, s, o1, k)
      | (.fail e, o1, k) => (.someErr e, s, o1, k)
      | (.diverge, o1, k) => (.outOfFuel, s, o1, k)
      | (.filled n buf1, o1, k) =>
        let s1 : ReadDirState := { s with buf := buf1, buf_size := n, buf_offset := 0 }
        let d := recordStep s1
        if skipEntry d.2.1 d.1 then
          let q := nextGo fuel d.2.2 o1
          (q.1, q.2.1, q.2.2.1, k + q.2.2.2)
        else
          (.someOk d.1, d.2.2, o1, k)
    else
      let d := recordStep s
      if skipEntry d.2.1 d.1 then nextGo fuel d.2.2 o
      else (.someOk d.1, d.2.2, o, 0)

/-- Result of a retried POSIX call (`try_posix_fn`): success value, surfaced
errno, or `diverge` when the oracle ran out while retrying. -/
inductive PosixResult where
  | ok (res : Int)
  | err (errno : Nat)
  | diverge
deriving DecidableEq

/-- Model of the `try_posix_fn` retry macro: repeat the call while it
returns `-1` with errno `EINTR`; surface the first other outcome.  The
oracle lists, per invocation, the raw result and the errno.  Also returns
the number of invocations. -/
def try_posix_fn : List (Int × Nat) → PosixResult × Nat
  | [] => (.diverge, 0)
  | (res, e) :: rest =>
    if res ≠ -1 then (.ok res, 1)
    else if e ≠ EINTR then (.err e, 1)
    else
      let p := try_posix_fn rest
      (p.1, p.2 + 1)

/-- One kernel answer to an `fstat64` invocation: raw result, errno when the
result is `-1`, and the reported `st_size` otherwise. -/
structure StatRet where
  res : Int
  errno : Nat
  st_size : Nat
deriving DecidableEq

/-- The `fstat64` call under the `try_posix_fn` retry loop: yields the
reported `st_size` or the surfaced errno, plus the invocation count. -/
def fstatLoop : List StatRet → (Option (Except Nat Nat)) × Nat
  | [] => (Option.none, 0)
  | r :: rest =>
    if r.res ≠ -1 then (Option.some (Except.ok r.st_size), 1)
    else if r.errno ≠ EINTR then (Option.some (Except.error r.errno), 1)
    else
      let p := fstatLoop rest
      (p.1, p.2 + 1)

/-- Model of Rust `Ord::clamp`: `min (max x lo) hi`. -/
def rustClamp (x lo hi : Nat) : Nat := min (max x lo) hi

/-- The buffer-capacity heuristic of `ReadDir::new`: add `BUFSIZ - 1` to the
reported `st_size` (in `usize` arithmetic), mask off the low bits with
`!(BUFSIZ - 1)` (whose `usize` value is `2^64 - BUFSIZ`), and clamp between
`BUFSIZ` and 1 MiB. -/
def buf_capacity (st_size : Nat) : Nat :=
  rustClamp (((st_size + (BUFSIZ - 1)) % USIZE) &&& (USIZE - BUFSIZ))
    BUFSIZ (1024 * 1024)

/-- The freshly constructed iterator state: zero-filled buffer of the given
capacity, `buf_size = 0`, `buf_offset = 0`. -/
def initState (root : List Nat) (cap : Nat) : ReadDirState :=
  ⟨root, List.replicate cap 0, 0, 0⟩

/-- Result of `ReadDir::new`: the interior-NUL error from `CString::new`, a
surfaced OS errno, a diverging retry loop, or the constructed state. -/
inductive NewResult where
  | nulError
  | osError (errno : Nat)
  | diverge
  | ok (s : ReadDirState)
deriving DecidableEq

/-- Model of `ReadDir::new`: convert the path to a C string (failing on any
NUL byte before any syscall), open the directory under the retry loop, stat
it under the retry loop, and build the initial state with the heuristic
capacity.  Also returns the total number of syscall invocations issued. -/
def ReadDir.new (path : List Nat) (openO : List (Int × Nat)) (statO : List StatRet) :
    NewResult × Nat :=
  if 0 ∈ path then (.nulError, 0)
  else
    match try_posix_fn openO with
    | (.diverge, k) => (.diverge, k)
    | (.err e, k) => (.osError e, k)
    | (.ok _, k) =>
      match fstatLoop statO with
      | (Option.none, k2) => (.diverge, k + k2)
      | (Option.some (Except.error e), k2) => (.osError e, k + k2)
      | (Option.some (Except.ok sz), k2) =>
        (.ok (initState path (buf_capacity sz)), k + k2)

/-- Well-formedness of the kernel-written region `[off, size)` of the
buffer: starting at `off`, the `d_reclen` fields are positive and chain
exactly to `size` (the spec's "consecutive record lengths in one refill
batch sum to `valid_length`"). -/
inductive ValidChain (buf : List Nat) (size : Nat) : Nat → Prop where
  | done : ValidChain buf size size
  | step {off : Nat} (hlt : off < size) (hpos : 0 < d_reclen buf off)
      (hle : off + d_reclen buf off ≤ size)
      (htail : ValidChain buf size (off + d_reclen buf off)) :
      ValidChain buf size off

/-- The buffer-cursor invariant of the spec,
`0 <= read_offset <= valid_length <= buffer.capacity`, strengthened with the
record-chain well-formedness of the valid region that the spec states as a
precondition on refills. -/
structure Inv (cap : Nat) (s : ReadDirState) : Prop where
  hbuf : s.buf.length = cap
  hoff : s.buf_offset ≤ s.buf_size
  hsize : s.buf_size ≤ cap
  hchain : ValidChain s.buf s.buf_size s.buf_offset

/-- The spec's precondition on one kernel answer: a successful refill writes
at most the capacity and leaves a well-formed record chain over the valid
region. -/
def GoodRet (cap : Nat) (r : SyscallRet) : Prop :=
  0 < r.res → r.res.toNat ≤ cap ∧
    ∀ buf : List Nat, buf.length = cap → ValidChain (writeBuf buf r.data) r.res.toNat 0

/-- The spec's refill precondition, for every answer the kernel may give. -/
def GoodOracle (cap : Nat) (o : List SyscallRet) : Prop := ∀ r ∈ o, GoodRet cap r

/-- The kernel eventually reports end of directory: the oracle's last answer
is a return of 0 (the spec's "unmodified directory"). -/
def EndsEof (o : List SyscallRet) : Prop := ∃ r, o.getLast? = some r ∧ r.res = 0

/-- Whether a `next` result is a yielded entry. -/
def isOk : NextResult → Bool
  | .someOk _ => true
  | _ => false

/-- Whether a `next` result is an error item. -/
def isErr : NextResult → Bool
  | .someErr _ => true
  | _ => false

/-- The copied byte count of a yielded entry (0 when nothing was yielded). -/
def okEntryLen : NextResult → Nat
  | .someOk e => e.entry.length
  | _ => 0

/-- A kernel answer for the C3 scenario: 24 bytes written, but the record
they hold claims `d_reclen = 300` (bytes 44, 1 little-endian at offset 16),
with identity 1 and name `a`. -/
def c3oracle : List SyscallRet :=
  [⟨24, [1, 0, 0, 0, 0, 0, 0, 0,
         0, 0, 0, 0, 0, 0, 0, 0,
         44, 1,
         0,
         97, 0, 0, 0, 0]⟩]

/-- A freshly constructed iterator (root `/d`, capacity `BUFSIZ`). -/
def c3start : ReadDirState := initState [47, 100] BUFSIZ

/-- A concrete state whose buffer region is fully consumed, as after the
iterator has reported end of directory. -/
def c1start : ReadDirState := initState [47, 116] BUFSIZ

/-- A kernel answer reporting end of directory. -/
def eofRet : SyscallRet := ⟨0, []⟩

/-- A concrete iterator state holding one well-formed record: identity 7,
record length 24, name `f` (one byte, NUL-terminated, padded). -/
def c5st : ReadDirState :=
  ⟨[47, 114],
   [7, 0, 0, 0, 0, 0, 0, 0,
    0, 0, 0, 0, 0, 0, 0, 0,
    24, 0,
    0,
    102, 0, 0, 0, 0],
   24, 0⟩

/-! ### Helper lemmas about the retry loops -/

/-- The retry loop around a POSIX call never surfaces the `EINTR` errno. -/
theorem try_posix_fn_ne_eintr (o : List (Int × Nat)) (k : Nat) :
    try_posix_fn o ≠ (.err EINTR, k) := by
  induction o generalizing k with
  | nil => simp [try_posix_fn]
  | cons r rest ih =>
    obtain ⟨res, e⟩ := r
    by_cases h1 : res = -1
    · subst h1
      by_cases h2 : e = EINTR
      · subst h2
        simp only [try_posix_fn, ne_eq, not_true_eq_false, if_false, ite_self]
        cases hp : try_posix_fn rest with
        | mk p1 p2 =>
          intro hc
          simp only [Prod.mk.injEq] at hc
          exact ih p2 (by rw [hp, hc.1])
      · simp [try_posix_fn, h2]
    · simp [try_posix_fn, h1]

/-- On an `EINTR` answer, `try_posix_fn` re-issues the call: it recurses on
the rest of the oracle, adding one invocation. -/
theorem try_posix_fn_eintr_step (o : List (Int × Nat)) :
    try_posix_fn ((-1, EINTR) :: o) = ((try_posix_fn o).1, (try_posix_fn o).2 + 1) := by
  simp [try_posix_fn]

/-- The refill loop never surfaces the `EINTR` errno as a failure. -/
theorem refillLoop_fail_ne_eintr (buf : List Nat) (o o1 : List SyscallRet)
    (e k : Nat) (h : refillLoop buf o = (.fail e, o1, k)) : e ≠ EINTR := by
  induction o generalizing o1 k with
  | nil => simp [refillLoop] at h
  | cons r rest ih =>
    by_cases h1 : r.res = 0
    · simp [refillLoop, h1] at h
    · by_cases h2 : 0 < r.res
      · simp [refillLoop, h1, h2] at h
      · by_cases h3 : (-r.res).toNat = EINTR
        · simp only [refillLoop, if_neg h1, if_neg h2, h3, ne_eq,
            not_true_eq_false, if_false] at h
          cases hp : refillLoop buf rest with
          | mk q1 q2 =>
            rw [hp] at h
            rw [Prod.mk.injEq] at h
            exact ih q2.1 q2.2 (by rw [hp, ← h.1, Prod.mk.injEq] at *; exact ⟨rfl, rfl⟩)
        · simp only [refillLoop, if_neg h1, if_neg h2, ne_eq, h3,
            not_false_eq_true, if_true] at h
          rw [Prod.mk.injEq, Prod.mk.injEq] at h
          rcases h with ⟨h4, -⟩
          injection h4 with h5
          exact h5 ▸ h3

/-- On an `EINTR` answer, the refill loop re-issues `getdents64`: it recurses
on the rest of the oracle, adding one invocation. -/
theorem refillLoop_eintr_step (buf d : List Nat) (rest : List SyscallRet) :
    refillLoop buf (⟨-(EINTR : Int), d⟩ :: rest) =
      ((refillLoop buf rest).1, (refillLoop buf rest).2.1,
        (refillLoop buf rest).2.2 + 1) := by
  simp [refillLoop, EINTR]

/-- One call to `next` never produces an `EINTR` error item. -/
theorem nextGo_ne_someErr_eintr (fuel : Nat) (s : ReadDirState) (o : List SyscallRet) :
    (nextGo fuel s o).1 ≠ .someErr EINTR := by
  induction fuel generalizing s o with
  | zero => simp [nextGo]
  | succ fuel ih =>
    rw [nextGo]
    by_cases hb : s.buf_size ≤ s.buf_offset
    · rw [if_pos hb]
      rcases hr : refillLoop s.buf o with ⟨out, o1, k⟩
      cases out with
      | eof => simp
      | fail e =>
        simp only [ne_eq]
        intro hc
        cases hc
        exact refillLoop_fail_ne_eintr s.buf o o1 EINTR k hr rfl
      | diverge => simp
      | filled n buf1 =>
        simp only []
        split
        · exact ih _ _
        · simp
    · rw [if_neg hb]
      simp only []
      split
      · exact ih _ _
      · simp

/-! ### Claim theorems -/

/-- C1 counterexample: starting from a consumed buffer with a kernel that
reports end of directory twice, the first call to `next` yields `None`
(the iterator reaches the claimed `Exhausted` condition), yet the second
call still issues one `getdents64` invocation — the code keeps no terminal
state and re-attempts the refill, contradicting "never again invokes the
batch-read call". -/
theorem claim_C1_cex :
    (nextGo 3 c1start [eofRet, eofRet]).1 = .none ∧
    (nextGo 3 (nextGo 3 c1start [eofRet, eofRet]).2.1
        (nextGo 3 c1start [eofRet, eofRet]).2.2.1).2.2.2 = 1 := by
  constructor <;> rfl

/-- C1 (amended): the iterator records no terminal state.  After the buffer
is consumed (`buf_size ≤ buf_offset`, as holds when `None` or the error
item was produced), every further call to `next` re-issues exactly one
batch-read syscall; if the kernel again reports end of directory the call
yields `None` again, and if it reports the same non-EINTR error the call
re-raises that same error; the state is returned unchanged, so this repeats
on every subsequent call. -/
theorem claim_C1_amended (s : ReadDirState) (r : SyscallRet) (rest : List SyscallRet)
    (fuel : Nat) (hterm : s.buf_size ≤ s.buf_offset) :
    (r.res = 0 → nextGo (fuel + 1) s (r :: rest) = (.none, s, rest, 1)) ∧
    (∀ e : Nat, 0 < e → e ≠ EINTR → r.res = -(e : Int) →
      nextGo (fuel + 1) s (r :: rest) = (.someErr e, s, rest, 1)) := by
  constructor
  · intro hres
    rw [nextGo, if_pos hterm]
    simp [refillLoop, hres]
  · intro e he hne hres
    have h1 : ¬ r.res = 0 := by rw [hres]; omega
    have h2 : ¬ 0 < r.res := by rw [hres]; omega
    have h3 : (-r.res).toNat = e := by rw [hres]; omega
    rw [nextGo, if_pos hterm]
    simp [refillLoop, h1, h2, h3, hne]

/-- C1 amended, witness. -/
theorem claim_C1_amended_witness :
    nextGo 1 ⟨[], [], 0, 0⟩ [eofRet] = (.none, ⟨[], [], 0, 0⟩, [], 1) :=
  (claim_C1_amended ⟨[], [], 0, 0⟩ eofRet [] 0 (by decide)).1 rfl

/-- C2: signal interruption is never surfaced.  (a) the retried POSIX call
(used for `open` and `fstat64`) never returns the `EINTR` errno; (b) on an
`EINTR` answer it re-issues the call; (c) the refill loop never fails with
`EINTR`; (d) on an `EINTR` answer the refill loop re-issues `getdents64`
instead of producing an error; (e) hence a call to `next` never produces an
`EINTR` error item. -/
theorem claim_C2_eintr_never_surfaced :
    (∀ o : List (Int × Nat), ∀ k : Nat, try_posix_fn o ≠ (.err EINTR, k)) ∧
    (∀ o : List (Int × Nat),
      try_posix_fn ((-1, EINTR) :: o) = ((try_posix_fn o).1, (try_posix_fn o).2 + 1)) ∧
    (∀ buf : List Nat, ∀ o o1 : List SyscallRet, ∀ e k : Nat,
      refillLoop buf o = (.fail e, o1, k) → e ≠ EINTR) ∧
    (∀ buf d : List Nat, ∀ rest : List SyscallRet,
      refillLoop buf (⟨-(EINTR : Int), d⟩ :: rest) =
        ((refillLoop buf rest).1, (refillLoop buf rest).2.1,
          (refillLoop buf rest).2.2 + 1)) ∧
    (∀ fuel : Nat, ∀ s : ReadDirState, ∀ o : List SyscallRet,
      (nextGo fuel s o).1 ≠ .someErr EINTR) :=
  ⟨try_posix_fn_ne_eintr, try_posix_fn_eintr_step, refillLoop_fail_ne_eintr,
    refillLoop_eintr_step, nextGo_ne_someErr_eintr⟩

/-- C2 witness: a concrete oracle that answers `EINTR` once and then
succeeds; the retried call surfaces the success after two invocations. -/
theorem claim_C2_witness :
    try_posix_fn [(-1, EINTR), (5, 0)] = (.ok 5, 2) := by
  have h := claim_C2_eintr_never_surfaced.2.1 [(5, 0)]
  rw [h]
  rfl

/-- C7: a refill answer of exactly 0 bytes is terminal end-of-directory and
not an error: with the buffer consumed, `next` yields `None` (no error
item); in particular on a freshly constructed iterator over an empty
directory (first kernel answer 0) the very first call yields `None`, so the
sequence has zero entries and no error item. -/
theorem claim_C7_eof_not_error (s : ReadDirState) (r : SyscallRet) (o : List SyscallRet)
    (fuel : Nat) (hempty : s.buf_size ≤ s.buf_offset) (hres : r.res = 0) :
    nextGo (fuel + 1) s (r :: o) = (.none, s, o, 1) ∧
    (∀ root : List Nat, ∀ cap : Nat,
      nextGo (fuel + 1) (initState root cap) (r :: o) =
        (.none, initState root cap, o, 1)) := by
  have key : ∀ s1 : ReadDirState, s1.buf_size ≤ s1.buf_offset →
      nextGo (fuel + 1) s1 (r :: o) = (.none, s1, o, 1) := by
    intro s1 h1
    rw [nextGo, if_pos h1]
    simp [refillLoop, hres]
  exact ⟨key s hempty, fun root cap => key (initState root cap) (Nat.le_refl 0)⟩

/-- C7 witness: an iterator over an empty directory yields `None` at once. -/
theorem claim_C7_witness :
    nextGo 1 (initState [47] BUFSIZ) [eofRet] = (.none, initState [47] BUFSIZ, [], 1) :=
  (claim_C7_eof_not_error (initState [47] BUFSIZ) eofRet [] 0 (Nat.le_refl 0) rfl).1

/-- C10: a path containing a NUL byte makes `read_dir` fail at call time
with the C-string conversion error, before any syscall is issued (the
invocation count is 0) and without constructing an iterator state. -/
theorem claim_C10_nul_path (path : List Nat) (openO : List (Int × Nat))
    (statO : List StatRet) (h : 0 ∈ path) :
    ReadDir.new path openO statO = (.nulError, 0) := by
  rw [ReadDir.new, if_pos h]

/-- C10 witness: the concrete path `a\0b`. -/
theorem claim_C10_witness :
    ReadDir.new [97, 0, 98] [(3, 0)] [⟨0, 0, 100⟩] = (.nulError, 0) :=
  claim_C10_nul_path [97, 0, 98] [(3, 0)] [⟨0, 0, 100⟩] (by decide)

/-- Taking the length of a `takeWhile` prefix recovers that prefix. -/
theorem take_length_takeWhile (p : Nat → Bool) (l : List Nat) :
    l.take (l.takeWhile p).length = l.takeWhile p := by
  induction l with
  | nil => rfl
  | cons a l ih =>
    by_cases h : p a
    · simp [List.takeWhile_cons, h, ih]
    · simp [List.takeWhile_cons, h]

/-- C4: at a record-decoding step, the decoded record is skipped (the loop
continues without yielding) exactly when `d_ino` is zero or the name is `.`
or `..`, and otherwise it is yielded; the skip condition being false is
equivalent to the entry's identity being nonzero and its name differing
from `.` and `..`. -/
theorem claim_C4_filter (s : ReadDirState) (o : List SyscallRet) (fuel : Nat)
    (hdata : s.buf_offset < s.buf_size) :
    (skipEntry (recordStep s).2.1 (recordStep s).1 = true →
      nextGo (fuel + 1) s o = nextGo fuel (recordStep s).2.2 o) ∧
    (skipEntry (recordStep s).2.1 (recordStep s).1 = false →
      nextGo (fuel + 1) s o = (.someOk (recordStep s).1, (recordStep s).2.2, o, 0)) ∧
    (skipEntry (recordStep s).2.1 (recordStep s).1 = false ↔
      (recordStep s).2.1 ≠ 0 ∧ nameBytes (recordStep s).1 ≠ [46] ∧
        nameBytes (recordStep s).1 ≠ [46, 46]) := by
  have hb : ¬ s.buf_size ≤ s.buf_offset := by omega
  refine ⟨?_, ?_, ?_⟩
  · intro h
    rw [nextGo, if_neg hb]
    simp [h]
  · intro h
    rw [nextGo, if_neg hb]
    simp [h]
  · rw [skipEntry]
    simp [and_assoc]

/-- C4 witness: on the concrete record with identity 7 and name `f`, `next`
yields the entry. -/
theorem claim_C4_witness :
    c5st.buf_offset < c5st.buf_size ∧
    nextGo 1 c5st [] = (.someOk (recordStep c5st).1, (recordStep c5st).2.2, [], 0) :=
  ⟨by decide, (claim_C4_filter c5st [] 0 (by decide)).2.1 (by decide)⟩

/-- C5: when the record's name field holds its NUL terminator inside the
record (`NAME_START + strlen < d_reclen`), the yielded entry's name is
exactly the bytes of the name field up to the first NUL — its length found
by scanning, not read from a length field — and `path()` is exactly the
root path joined with that name.  `path()` is a pure function of the entry
(deterministic, no I/O, total). -/
theorem claim_C5_path (s : ReadDirState)
    (hname : NAME_START + strlenFrom s.buf (s.buf_offset + NAME_START) <
      d_reclen s.buf s.buf_offset) :
    nameBytes (recordStep s).1 =
      (s.buf.drop (s.buf_offset + NAME_START)).takeWhile (fun b => b != 0) ∧
    DirEntry.path (recordStep s).1 =
      pathJoin s.root
        ((s.buf.drop (s.buf_offset + NAME_START)).takeWhile (fun b => b != 0)) ∧
    DirEntry.path (recordStep s).1 = DirEntry.path (recordStep s).1 := by
  have h1 : nameBytes (recordStep s).1 =
      (s.buf.drop (s.buf_offset + NAME_START)).takeWhile (fun b => b != 0) := by
    show (((s.buf.drop s.buf_offset).take (d_reclen s.buf s.buf_offset)).drop
        NAME_START).take (strlenFrom s.buf (s.buf_offset + NAME_START)) = _
    rw [List.drop_take, List.drop_drop]
    rw [List.take_take]
    rw [strlenFrom]
    rw [Nat.min_eq_left (by
      have := hname
      rw [strlenFrom] at this
      omega)]
    exact take_length_takeWhile _ _
  exact ⟨h1, by rw [DirEntry.path, show (recordStep s).1.root = s.root from rfl, h1], rfl⟩

/-- C5 witness: on the concrete record, the entry's name is `f` and its path
is the root `/r` joined with `f`, that is `/r/f`. -/
theorem claim_C5_witness :
    (NAME_START + strlenFrom c5st.buf (c5st.buf_offset + NAME_START) <
      d_reclen c5st.buf c5st.buf_offset) ∧
    DirEntry.path (recordStep c5st).1 = [47, 114, 47, 102] := by
  refine ⟨by decide, ?_⟩
  rw [(claim_C5_path c5st (by decide)).2.1]
  rfl

/-- Inversion of a record chain at an offset strictly below `size`. -/
theorem validChain_step {buf : List Nat} {size off : Nat}
    (h : ValidChain buf size off) (hlt : off < size) :
    0 < d_reclen buf off ∧ off + d_reclen buf off ≤ size ∧
      ValidChain buf size (off + d_reclen buf off) := by
  cases h with
  | done => omega
  | step hlt2 hpos hle htail => exact ⟨hpos, hle, htail⟩

/-- Writing into the buffer prefix preserves the buffer's length. -/
theorem writeBuf_length (buf data : List Nat) :
    (writeBuf buf data).length = buf.length := by
  induction buf generalizing data with
  | nil => cases data <;> rfl
  | cons b bs ih =>
    cases data with
    | nil => rfl
    | cons d ds => simp [writeBuf, ih]

/-- The oracle left by a refill is a suffix of the oracle it started from. -/
theorem refillLoop_suffix (buf : List Nat) (o : List SyscallRet) :
    (refillLoop buf o).2.1 <:+ o := by
  induction o with
  | nil => simp [refillLoop]
  | cons r rest ih =>
    rw [refillLoop]
    by_cases h1 : r.res = 0
    · simp [h1]
    · by_cases h2 : 0 < r.res
      · simp [h1, h2]
      · by_cases h3 : (-r.res).toNat ≠ EINTR
        · simp [h1, h2, h3]
        · simp only [if_neg h1, if_neg h2, if_neg h3]
          exact ih.trans (List.suffix_cons r rest)

/-- A refill that does not run out of oracle consumes at least one answer. -/
theorem refillLoop_consumed (buf : List Nat) (o : List SyscallRet)
    (h : (refillLoop buf o).1 ≠ .diverge) :
    (refillLoop buf o).2.1.length < o.length := by
  induction o with
  | nil => simp [refillLoop] at h
  | cons r rest ih =>
    rw [refillLoop] at h ⊢
    by_cases h1 : r.res = 0
    · simp [h1]
    · by_cases h2 : 0 < r.res
      · simp [h1, h2]
      · by_cases h3 : (-r.res).toNat ≠ EINTR
        · simp [h1, h2, h3]
        · simp only [if_neg h1, if_neg h2, if_neg h3] at h ⊢
          exact Nat.lt_trans (ih h) (by simp)

/-- When the oracle's last answer reports end of directory, the refill loop
cannot run out of oracle. -/
theorem refillLoop_not_diverge (buf : List Nat) (o : List SyscallRet)
    (hEnd : EndsEof o) : (refillLoop buf o).1 ≠ .diverge := by
  induction o with
  | nil =>
    obtain ⟨r, hr, -⟩ := hEnd
    simp at hr
  | cons a rest ih =>
    rw [refillLoop]
    by_cases h1 : a.res = 0
    · simp [h1]
    · by_cases h2 : 0 < a.res
      · simp [h1, h2]
      · by_cases h3 : (-a.res).toNat ≠ EINTR
        · simp [h1, h2, h3]
        · simp only [if_neg h1, if_neg h2, if_neg h3]
          cases rest with
          | nil =>
            obtain ⟨r, hr, hr0⟩ := hEnd
            simp at hr
            rw [hr] at h1
            exact absurd hr0 h1
          | cons b t =>
            apply ih
            obtain ⟨r, hr, hr0⟩ := hEnd
            rw [List.getLast?_cons_cons] at hr
            exact ⟨r, hr, hr0⟩

/-- A successful refill keeps the end-of-directory answer in the remaining
oracle. -/
theorem refillLoop_filled_endsEof (buf : List Nat) (o : List SyscallRet)
    {n : Nat} {b : List Nat} {o1 : List SyscallRet} {k : Nat}
    (h : refillLoop buf o = (.filled n b, o1, k)) (hEnd : EndsEof o) :
    EndsEof o1 := by
  induction o generalizing k with
  | nil => simp [refillLoop] at h
  | cons a rest ih =>
    rw [refillLoop] at h
    by_cases h1 : a.res = 0
    · simp [h1] at h
    · by_cases h2 : 0 < a.res
      · simp only [if_neg h1, if_pos h2, Prod.mk.injEq] at h
        obtain ⟨-, ho1, -⟩ := h
        subst ho1
        clear ih
        cases rest with
        | nil =>
          obtain ⟨r, hr, hr0⟩ := hEnd
          simp at hr
          rw [← hr] at hr0
          exact absurd hr0 h1
        | cons b1 t =>
          obtain ⟨r, hr, hr0⟩ := hEnd
          rw [List.getLast?_cons_cons] at hr
          exact ⟨r, hr, hr0⟩
      · by_cases h3 : (-a.res).toNat ≠ EINTR
        · simp [h1, h2, h3] at h
        · simp only [if_neg h1, if_neg h2, if_neg h3] at h
          have hrest : EndsEof rest := by
            cases rest with
            | nil =>
              obtain ⟨r, hr, hr0⟩ := hEnd
              simp at hr
              rw [hr] at h1
              exact absurd hr0 h1
            | cons b1 t =>
              obtain ⟨r, hr, hr0⟩ := hEnd
              rw [List.getLast?_cons_cons] at hr
              exact ⟨r, hr, hr0⟩
          rcases hp : refillLoop buf rest with ⟨out, o2, k2⟩
          rw [hp] at h
          simp only [Prod.mk.injEq] at h
          obtain ⟨hout, ho1, -⟩ := h
          exact ih (by rw [hp, hout, ho1]) hrest

/-- A successful refill satisfies the spec's refill precondition: a positive
byte count bounded by the capacity, a buffer of unchanged length, and a
well-formed record chain over the valid region. -/
theorem refillLoop_filled_good (cap : Nat) (buf : List Nat) (o : List SyscallRet)
    {n : Nat} {b : List Nat} {o1 : List SyscallRet} {k : Nat}
    (hO : GoodOracle cap o) (hbuf : buf.length = cap)
    (h : refillLoop buf o = (.filled n b, o1, k)) :
    0 < n ∧ n ≤ cap ∧ b.length = cap ∧ ValidChain b n 0 := by
  induction o generalizing k with
  | nil => simp [refillLoop] at h
  | cons a rest ih =>
    rw [refillLoop] at h
    by_cases h1 : a.res = 0
    · simp [h1] at h
    · by_cases h2 : 0 < a.res
      · simp only [if_neg h1, if_pos h2, Prod.mk.injEq] at h
        obtain ⟨hfill, -, -⟩ := h
        injection hfill with hn hb
        subst hn
        subst hb
        obtain ⟨hcap, hchain⟩ := hO a (List.mem_cons_self a rest) h2
        refine ⟨by omega, hcap, ?_, hchain buf hbuf⟩
        rw [writeBuf_length, hbuf]
      · by_cases h3 : (-a.res).toNat ≠ EINTR
        · simp [h1, h2, h3] at h
        · simp only [if_neg h1, if_neg h2, if_neg h3] at h
          rcases hp : refillLoop buf rest with ⟨out, o2, k2⟩
          rw [hp] at h
          simp only [Prod.mk.injEq] at h
          obtain ⟨hout, ho1, -⟩ := h
          exact ih (fun r hr => hO r (List.mem_cons_of_mem a hr))
            (by rw [hp, hout, ho1])

/-- A suffix of a good oracle is a good oracle. -/
theorem goodOracle_suffix {cap : Nat} {o o1 : List SyscallRet}
    (hs : o1 <:+ o) (hO : GoodOracle cap o) : GoodOracle cap o1 :=
  fun r hr => hO r (hs.subset hr)

/-- The record-decoding step preserves the invariant when a record is
available. -/
theorem inv_recordStep {cap : Nat} {s : ReadDirState} (hInv : Inv cap s)
    (hlt : s.buf_offset < s.buf_size) : Inv cap (recordStep s).2.2 := by
  obtain ⟨h1, h2, h3, h4⟩ := hInv
  obtain ⟨hpos, hle, htail⟩ := validChain_step h4 hlt
  exact ⟨h1, hle, h3, htail⟩

set_option maxRecDepth 8000 in
/-- C3 counterexample: from a freshly
constructed iterator, a kernel answer of 24 valid bytes whose record claims
`d_reclen = 300` makes `next` yield an ordinary entry (no error item): the
decode step performs no bounds check, copies 300 bytes — far past
`valid_length = 24` — and advances the read offset to 300. -/
theorem claim_C3_cex :
    isOk (nextGo 2 c3start c3oracle).1 = true ∧
    isErr (nextGo 2 c3start c3oracle).1 = false ∧
    okEntryLen (nextGo 2 c3start c3oracle).1 = 300 ∧
    (nextGo 2 c3start c3oracle).2.1.buf_size = 24 ∧
    (nextGo 2 c3start c3oracle).2.1.buf_offset = 300 := by
  exact ⟨rfl, rfl, rfl, rfl, rfl⟩

/-- C3 (amended): the decode step validates nothing — it trusts `d_reclen`
and yields an ordinary entry even when the record overruns `valid_length`
(see the counterexample).  The bytes it accesses lie within
`[read_offset, valid_length)` only under the spec's kernel-well-formedness
precondition: when the valid region holds a well-formed record chain, the
current record ends at or before `valid_length`, and the advanced offset
stays within it. -/
theorem claim_C3_amended (s : ReadDirState) (hlt : s.buf_offset < s.buf_size)
    (hchain : ValidChain s.buf s.buf_size s.buf_offset) :
    0 < d_reclen s.buf s.buf_offset ∧
    s.buf_offset + d_reclen s.buf s.buf_offset ≤ s.buf_size ∧
    (recordStep s).2.2.buf_offset ≤ s.buf_size := by
  obtain ⟨hpos, hle, -⟩ := validChain_step hchain hlt
  exact ⟨hpos, hle, hle⟩

/-- C3 amended, witness: the concrete well-formed single-record state. -/
theorem claim_C3_witness :
    c5st.buf_offset + d_reclen c5st.buf c5st.buf_offset ≤ c5st.buf_size :=
  (claim_C3_amended c5st (by decide)
    (ValidChain.step (by decide) (by decide) (by decide) (by
      have h24 : 0 + d_reclen c5st.buf 0 = c5st.buf_size := by decide
      show ValidChain c5st.buf c5st.buf_size (0 + d_reclen c5st.buf 0)
      rw [h24]
      exact ValidChain.done))).2.1

/-- The record chain of the concrete single-record state. -/
theorem c5st_chain : ValidChain c5st.buf c5st.buf_size 0 := by
  have h24 : 0 + d_reclen c5st.buf 0 = c5st.buf_size := by decide
  exact ValidChain.step (by decide) (by decide) (by decide)
    (by rw [h24]; exact ValidChain.done)

/-- The invariant of the concrete single-record state, at capacity 24. -/
theorem c5st_inv : Inv 24 c5st :=
  ⟨by decide, by decide, by decide, c5st_chain⟩

/-- One call to `next` preserves the buffer-cursor invariant under the
spec's refill precondition. -/
theorem nextGo_preserves_inv (cap : Nat) (fuel : Nat) :
    ∀ (s : ReadDirState) (o : List SyscallRet), Inv cap s → GoodOracle cap o →
    Inv cap (nextGo fuel s o).2.1 := by
  induction fuel with
  | zero =>
    intro s o h _
    exact h
  | succ fuel ih =>
    intro s o hInv hO
    rw [nextGo]
    by_cases hb : s.buf_size ≤ s.buf_offset
    · rw [if_pos hb]
      rcases hr : refillLoop s.buf o with ⟨out, o1, k⟩
      have hsuf : o1 <:+ o := by
        have h0 := refillLoop_suffix s.buf o
        rw [hr] at h0
        exact h0
      cases out with
      | eof => exact hInv
      | fail e => exact hInv
      | diverge => exact hInv
      | filled n b =>
        obtain ⟨hn, hcap2, hblen, hchain⟩ :=
          refillLoop_filled_good cap s.buf o hO hInv.hbuf hr
        have hInv1 : Inv cap ⟨s.root, b, n, 0⟩ := ⟨hblen, Nat.zero_le _, hcap2, hchain⟩
        simp only []
        split
        · exact ih _ _ (inv_recordStep hInv1 hn) (goodOracle_suffix hsuf hO)
        · exact inv_recordStep hInv1 hn
    · rw [if_neg hb]
      have hlt : s.buf_offset < s.buf_size := by omega
      simp only []
      split
      · exact ih _ _ (inv_recordStep hInv hlt) hO
      · exact inv_recordStep hInv hlt

/-- C8: the buffer-cursor invariant
`0 ≤ read_offset ≤ valid_length ≤ capacity` holds after construction and is
preserved by every call to `next`, under the spec's preconditions that each
refill writes at most the capacity and leaves positive record lengths
chaining exactly to `valid_length`. -/
theorem claim_C8_invariant (cap : Nat) (root : List Nat) (fuel : Nat)
    (s : ReadDirState) (o : List SyscallRet)
    (hInv : Inv cap s) (hO : GoodOracle cap o) :
    ((initState root cap).buf_offset ≤ (initState root cap).buf_size ∧
      (initState root cap).buf_size ≤ cap ∧
      (initState root cap).buf.length = cap) ∧
    ((nextGo fuel s o).2.1.buf_offset ≤ (nextGo fuel s o).2.1.buf_size ∧
      (nextGo fuel s o).2.1.buf_size ≤ cap ∧
      (nextGo fuel s o).2.1.buf.length = cap) := by
  have h := nextGo_preserves_inv cap fuel s o hInv hO
  exact ⟨⟨Nat.le_refl 0, Nat.zero_le cap, by simp [initState]⟩,
    h.hoff, h.hsize, h.hbuf⟩

/-- C8 witness: the invariant after one call on the concrete single-record
state with an empty oracle. -/
theorem claim_C8_witness :
    (nextGo 1 c5st []).2.1.buf_offset ≤ (nextGo 1 c5st []).2.1.buf_size :=
  (claim_C8_invariant 24 [] 1 c5st [] c5st_inv
    (fun r hr => absurd hr (List.not_mem_nil r))).2.1

/-- With a good oracle whose last answer is end-of-directory, `next` cannot
exhaust a fuel larger than the termination measure
`|oracle| * (capacity + 1) + (valid_length - read_offset)`: every refill
consumes oracle answers and every skipped record strictly advances the read
offset. -/
theorem nextGo_no_fuel_exhaustion (cap : Nat) (fuel : Nat) :
    ∀ (s : ReadDirState) (o : List SyscallRet), Inv cap s → GoodOracle cap o →
    EndsEof o → o.length * (cap + 1) + (s.buf_size - s.buf_offset) < fuel →
    (nextGo fuel s o).1 ≠ .outOfFuel := by
  induction fuel with
  | zero =>
    intro s o _ _ _ hf
    omega
  | succ fuel ih =>
    intro s o hInv hO hEnd hf
    rw [nextGo]
    by_cases hb : s.buf_size ≤ s.buf_offset
    · rw [if_pos hb]
      rcases hr : refillLoop s.buf o with ⟨out, o1, k⟩
      have hnd : (RefillOutcome.diverge : RefillOutcome) ≠ out := by
        have h0 := refillLoop_not_diverge s.buf o hEnd
        rw [hr] at h0
        exact fun hc => h0 hc.symm
      have hsuf : o1 <:+ o := by
        have h0 := refillLoop_suffix s.buf o
        rw [hr] at h0
        exact h0
      cases out with
      | eof => simp
      | fail e => simp
      | diverge => exact absurd rfl hnd
      | filled n b =>
        obtain ⟨hn, hcap2, hblen, hchain⟩ :=
          refillLoop_filled_good cap s.buf o hO hInv.hbuf hr
        have hInv1 : Inv cap ⟨s.root, b, n, 0⟩ := ⟨hblen, Nat.zero_le _, hcap2, hchain⟩
        have hlen : o1.length < o.length := by
          have h0 := refillLoop_consumed s.buf o (refillLoop_not_diverge s.buf o hEnd)
          rw [hr] at h0
          exact h0
        simp only []
        split
        · apply ih _ _ (inv_recordStep hInv1 hn) (goodOracle_suffix hsuf hO)
            (refillLoop_filled_endsEof s.buf o hr hEnd)
          have hm : o1.length * (cap + 1) + (cap + 1) ≤ o.length * (cap + 1) := by
            calc o1.length * (cap + 1) + (cap + 1) = (o1.length + 1) * (cap + 1) := by ring
              _ ≤ o.length * (cap + 1) := Nat.mul_le_mul_right _ hlen
          have hInv2 : Inv cap ((recordStep (⟨s.root, b, n, 0⟩ : ReadDirState)).2.2) :=
            inv_recordStep hInv1 hn
          have hdiff : (recordStep (⟨s.root, b, n, 0⟩ : ReadDirState)).2.2.buf_size -
              (recordStep (⟨s.root, b, n, 0⟩ : ReadDirState)).2.2.buf_offset ≤ cap :=
            Nat.le_trans (Nat.sub_le _ _) hInv2.hsize
          omega
        · simp
    · rw [if_neg hb]
      have hlt : s.buf_offset < s.buf_size := by omega
      obtain ⟨hpos, hle, -⟩ := validChain_step hInv.hchain hlt
      simp only []
      split
      · apply ih _ _ (inv_recordStep hInv hlt) hO hEnd
        have hsz : (recordStep s).2.2.buf_size = s.buf_size := rfl
        have hoff2 : (recordStep s).2.2.buf_offset =
            s.buf_offset + d_reclen s.buf s.buf_offset := rfl
        rw [hsz, hoff2]
        omega
      · simp

/-- C9: a single call to `next` terminates under the spec's preconditions:
with well-formed refills (positive record lengths chaining to
`valid_length`) and a kernel that eventually reports end of directory, the
call completes within `|oracle| * (capacity + 1) + capacity + 1` loop
iterations — it never runs out of that fuel. -/
theorem claim_C9_terminates (cap : Nat) (s : ReadDirState) (o : List SyscallRet)
    (hInv : Inv cap s) (hO : GoodOracle cap o) (hEnd : EndsEof o) :
    (nextGo (o.length * (cap + 1) + cap + 1) s o).1 ≠ .outOfFuel := by
  apply nextGo_no_fuel_exhaustion cap _ s o hInv hO hEnd
  have h1 := hInv.hoff
  have h2 := hInv.hsize
  omega

/-- C9 witness: the concrete single-record state with a one-answer oracle
reporting end of directory. -/
theorem claim_C9_witness :
    (nextGo ([eofRet].length * (24 + 1) + 24 + 1) c5st [eofRet]).1 ≠ .outOfFuel :=
  claim_C9_terminates 24 c5st [eofRet] c5st_inv
    (fun r hr => by
      rw [List.mem_singleton] at hr
      subst hr
      intro h0
      exact absurd h0 (by decide))
    ⟨eofRet, rfl, rfl⟩

/-- Bitwise-mask identity behind the capacity heuristic: for values below
`2^64`, masking with `2^64 - 2^13` (the `usize` value of `!(BUFSIZ - 1)`)
rounds down to a multiple of `2^13`. -/
theorem land_mask_eq (x : Nat) (hx : x < 2 ^ 64) :
    x &&& (2 ^ 64 - 2 ^ 13) = 2 ^ 13 * (x / 2 ^ 13) := by
  have hmask : (2 : Nat) ^ 64 - 2 ^ 13 = 2 ^ 13 * (2 ^ 51 - 1) := by norm_num
  have hdiv : x / 2 ^ 13 = x >>> 13 := (Nat.shiftRight_eq_div_pow x 13).symm
  apply Nat.eq_of_testBit_eq
  intro i
  rw [Nat.testBit_and, hmask, Nat.testBit_mul_pow_two, Nat.testBit_mul_pow_two, hdiv,
    Nat.testBit_shiftRight, Nat.testBit_two_pow_sub_one]
  by_cases h13 : 13 ≤ i
  · by_cases h64 : i < 64
    · have h1 : i - 13 < 51 := by omega
      have h2 : 13 + (i - 13) = i := by omega
      simp [h13, h1, h2]
    · have h1 : Nat.testBit x i = false :=
        Nat.testBit_lt_two_pow
          (Nat.lt_of_lt_of_le hx (Nat.pow_le_pow_right (by omega) (by omega)))
      have h3 : Nat.testBit x (13 + (i - 13)) = false := by
        rw [show 13 + (i - 13) = i from by omega]
        exact h1
      have h2 : ¬ i - 13 < 51 := by omega
      simp [h13, h1, h2, h3]
  · simp [h13]

/-- C6: for every nonnegative directory size `s` reported by `fstat64`
(`st_size` is a nonnegative 63-bit value there), the computed capacity
equals `s` rounded up to the next multiple of `BUFSIZ` and then clamped
into `[BUFSIZ, 1 MiB]`; in particular it is at least `BUFSIZ`, at most
1048576, and a multiple of `BUFSIZ` whenever the clamp does not bind at the
1 MiB bound. -/
theorem claim_C6_capacity (s : Nat) (hs : s < 2 ^ 63) :
    buf_capacity s =
      rustClamp (((s + (BUFSIZ - 1)) / BUFSIZ) * BUFSIZ) BUFSIZ (1024 * 1024) ∧
    BUFSIZ ≤ buf_capacity s ∧
    buf_capacity s ≤ 1024 * 1024 ∧
    (((s + (BUFSIZ - 1)) / BUFSIZ) * BUFSIZ ≤ 1024 * 1024 →
      BUFSIZ ∣ buf_capacity s) := by
  have hpow : (2 : Nat) ^ 63 + 8191 < 2 ^ 64 := by norm_num
  have hlt : s + 8191 < 2 ^ 64 := by omega
  have heq : buf_capacity s =
      rustClamp (((s + (BUFSIZ - 1)) / BUFSIZ) * BUFSIZ) BUFSIZ (1024 * 1024) := by
    rw [buf_capacity]
    rw [show USIZE - BUFSIZ = 2 ^ 64 - 2 ^ 13 from by rw [USIZE, BUFSIZ]; norm_num]
    rw [show BUFSIZ - 1 = 8191 from rfl]
    rw [show USIZE = 2 ^ 64 from rfl]
    rw [Nat.mod_eq_of_lt hlt, land_mask_eq _ hlt]
    rw [show (2 : Nat) ^ 13 * ((s + 8191) / 2 ^ 13) =
      ((s + (BUFSIZ - 1)) / BUFSIZ) * BUFSIZ from by
        simp only [BUFSIZ]
        norm_num [Nat.mul_comm]]
    rw [show BUFSIZ - 1 = 8191 from rfl]
  have hdvd : BUFSIZ ∣
      rustClamp (((s + (BUFSIZ - 1)) / BUFSIZ) * BUFSIZ) BUFSIZ (1024 * 1024) := by
    rw [rustClamp]
    rcases Nat.le_total (((s + (BUFSIZ - 1)) / BUFSIZ) * BUFSIZ) BUFSIZ with h | h
    · rw [Nat.max_eq_right h, Nat.min_eq_left (by rw [BUFSIZ]; norm_num)]
    · rw [Nat.max_eq_left h]
      rcases Nat.le_total (((s + (BUFSIZ - 1)) / BUFSIZ) * BUFSIZ) (1024 * 1024)
        with h2 | h2
      · rw [Nat.min_eq_left h2]
        exact dvd_mul_left _ _
      · rw [Nat.min_eq_right h2]
        exact ⟨128, by decide⟩
  refine ⟨heq, ?_, ?_, fun _ => heq ▸ hdvd⟩
  · rw [heq, rustClamp]
    exact Nat.le_min.mpr ⟨Nat.le_max_right _ _, by rw [BUFSIZ]; norm_num⟩
  · rw [heq, rustClamp]
    exact Nat.min_le_right _ _

/-- C6 witness: a directory of reported size 10000 gets a 16384-byte buffer
(10000 rounded up to the next multiple of 8192). -/
theorem claim_C6_witness :
    (10000 : Nat) < 2 ^ 63 ∧ buf_capacity 10000 = 16384 := by
  refine ⟨by norm_num, ?_⟩
  rw [(claim_C6_capacity 10000 (by norm_num)).1]
  rfl

end Getdents
